import Mathlib

/-!
Verification of the document composition engine of the pdf-editor-react
repository: coordinate transforms (src/components/PdfViewer.tsx), merging
(src/services/pdfService.ts), file reordering (the zustand editor store),
export orchestration (usePdfState.exportEdited), page-order materialization
(PDFPageService.createReorderedPDF) and the text-annotation commit logic.
Definitions are shallow embeddings of the corresponding TypeScript functions;
machine-level byte buffers are modelled as lists of naturals and page objects
as opaque tokens.
-/

namespace PdfEditor

/-! ## Data model (src/types/pdf.ts) -/

/-- `TextFormat` from src/types/pdf.ts: `'bold' | 'italic' | 'underline'`. -/
inductive TextFormat where
  | bold
  | italic
  | underline
deriving DecidableEq, Repr

/-- `TextStyle` from src/types/pdf.ts: font size and a hex color string. -/
structure TextStyle where
  fontSize : ℚ
  color : String
deriving DecidableEq, Repr

/-- `TextAnnotation` from src/types/pdf.ts; every field is optional in the
TypeScript type, hence the `Option` wrappers. -/
structure TextAnn where
  id : Option String
  x : Option ℚ
  y : Option ℚ
  text : Option String
  style : Option TextStyle
  formats : Option (List TextFormat)
  pageNumber : Option ℕ
deriving DecidableEq, Repr

/-- A serialized document: an opaque byte buffer. -/
abbrev Bytes := List ℕ

/-- A page object; its content is opaque to the composition engine, so it is
modelled as a token. -/
abbrev Page := ℕ

/-- An in-memory parsed document handle (pdf-lib `PDFDocument`): the ordered
list of its pages. -/
structure PDFDocument where
  pages : List Page
deriving DecidableEq, Repr

/-! ## Coordinate transform (src/components/PdfViewer.tsx, lines 51-54)

`pointsToPx = (pt) => (pt / 72) * 96 * scale` and
`pxToPoints = (px) => (px / scale) * (72 / 96)`.  The vertical flip used at
the call sites (`handlePageClick` line 122, preview rendering line 193) is
`yPoints = pxToPoints(height - y)` and `yPx = height - pointsToPx(yPoints)`.
Numbers are modelled as rationals. -/

/-- PDF points to CSS pixels at a given display scale. -/
def pointsToPx (scale pt : ℚ) : ℚ := pt / 72 * 96 * scale

/-- CSS pixels to PDF points at a given display scale. -/
def pxToPoints (scale px : ℚ) : ℚ := px / scale * (72 / 96)

/-! ## Export serializer (src/hooks/useAutoSave.ts `usePdfState.exportEdited`,
lines 167-180)

```
if (!mergedPdf) return null
let bytes = mergedPdf
const isSame = pageOrder.every((v, i) => v === i)
if (!isSame) bytes = await reorderPages(bytes, pageOrder)
if (annotations.length > 0) bytes = await addTextAnnotations(bytes, annotations)
return bytes
```

The two stage functions are abstract parameters (their implementations live in
the pdf-lib-backed service); the result records which optional stages ran. -/

/-- `pageOrder.every((v, i) => v === i)`: the tracked order is elementwise equal
to its own index sequence. -/
def isSameOrder (order : List ℕ) : Bool := order.enum.all fun p => p.2 == p.1

/-- Result of one export: the produced bytes plus which optional stages ran. -/
structure ExportResult where
  bytes : Bytes
  ranReorder : Bool
  ranAnnotate : Bool
deriving DecidableEq, Repr

/-- `usePdfState.exportEdited`, parameterized by the two stage functions. -/
def exportEdited (reorderPagesFn : Bytes → List ℕ → Bytes)
    (addTextAnnsFn : Bytes → List TextAnn → Bytes)
    (mergedPdf : Option Bytes) (pageOrder : List ℕ) (anns : List TextAnn) :
    Option ExportResult :=
  match mergedPdf with
  | none => none
  | some merged =>
    let isSame := isSameOrder pageOrder
    let afterReorder := if isSame then merged else reorderPagesFn merged pageOrder
    let afterAnns := if anns.length > 0 then addTextAnnsFn afterReorder anns
      else afterReorder
    some ⟨afterAnns, !isSame, decide (anns.length > 0)⟩

/-- The boolean identity-order check holds exactly when every entry equals its
own position. -/
theorem isSameOrder_eq_true_iff (order : List ℕ) :
    isSameOrder order = true ↔ ∀ (i : ℕ) (h : i < order.length), order[i] = i := by
  unfold isSameOrder
  rw [List.all_eq_true, List.forall_mem_enum]
  constructor
  · intro h i hi
    simpa using h i hi
  · intro h i hi
    simpa using h i hi

/-- The boolean identity-order check agrees with equality to `[0, …, n-1]`. -/
theorem isSameOrder_iff (order : List ℕ) :
    isSameOrder order = true ↔ order = List.range order.length := by
  rw [isSameOrder_eq_true_iff]
  constructor
  · intro h
    refine List.ext_getElem (by simp) ?_
    intro i h1 h2
    rw [List.getElem_range]
    exact h i h1
  · intro h i hi
    have h2 := congrArg (fun l => l.get? i) h
    simp only [List.get?_eq_getElem?] at h2
    rw [List.getElem?_eq_getElem hi, List.getElem?_range (by simpa using hi)] at h2
    exact Option.some.inj h2

/-- C1: for every export, the reorder stage runs iff the tracked page order
differs from the identity sequence `[0, …, n-1]`, the annotation stage runs iff
the annotation list is non-empty, and with an identity order and no
annotations the returned bytes are exactly the merged document's bytes. -/
theorem export_stage_gating (f : Bytes → List ℕ → Bytes)
    (g : Bytes → List TextAnn → Bytes) (merged : Bytes) (order : List ℕ)
    (anns : List TextAnn) (r : ExportResult)
    (h : exportEdited f g (some merged) order anns = some r) :
    (r.ranReorder = true ↔ order ≠ List.range order.length) ∧
    (r.ranAnnotate = true ↔ anns ≠ []) ∧
    (order = List.range order.length → anns = [] → r.bytes = merged) := by
  unfold exportEdited at h
  simp only [Option.some.injEq] at h
  subst h
  refine ⟨?_, ?_, ?_⟩
  · simp [← isSameOrder_iff]
  · simp [List.length_pos]
  · intro h1 h2
    subst h2
    simp [(isSameOrder_iff order).mpr h1]

/-- C1 witness: exporting a concrete two-page merge with the identity order and
no annotations returns the merged bytes unchanged. -/
theorem export_stage_gating_witness :
    (ExportResult.mk ([1, 2] : Bytes) false false).bytes = [1, 2] :=
  (export_stage_gating (fun b _ => b ++ [7]) (fun b _ => b ++ [8]) [1, 2] [0, 1]
    [] ⟨[1, 2], false, false⟩ (by decide)).2.2 (by decide) rfl

/-- C2: converting screen pixels to native PDF points and back returns the
input exactly, on both axes; the vertical axis includes the top-left to
bottom-left flip against the page height. -/
theorem coord_roundtrip (s p hpx : ℚ) (hs : 0 < s) :
    pointsToPx s (pxToPoints s p) = p ∧
    pxToPoints s (pointsToPx s p) = p ∧
    hpx - pointsToPx s (pxToPoints s (hpx - p)) = p := by
  have hs0 : s ≠ 0 := ne_of_gt hs
  unfold pointsToPx pxToPoints
  refine ⟨?_, ?_, ?_⟩
  · field_simp
    ring
  · field_simp
    ring
  · field_simp
    ring

/-- C2 witness: the round trip at scale 2, pixel position 5, page height 100. -/
theorem coord_roundtrip_witness :
    pointsToPx 2 (pxToPoints 2 5) = 5 ∧
    pxToPoints 2 (pointsToPx 2 5) = 5 ∧
    (100 : ℚ) - pointsToPx 2 (pxToPoints 2 (100 - 5)) = 5 :=
  coord_roundtrip 2 5 100 (by norm_num)

/-! ## Merge engine (src/services/pdfService.ts `mergePdfs`, lines 822-869,
and the identical loop of the unnamed service variant)

For each source in list order the loop copies all pages
(`copyPages(pdf, pdf.getPageIndices())`) and appends them to the output. -/

/-- pdf-lib `getPageIndices()`: `[0, …, pageCount-1]`. -/
def getPageIndices (d : PDFDocument) : List ℕ := List.range d.pages.length

/-- pdf-lib `copyPages(doc, indices)`: copies of the pages of `doc` at the
given indices, in the order given. -/
def copyPages (d : PDFDocument) (idxs : List ℕ) : List Page :=
  idxs.filterMap fun i => d.pages[i]?

/-- The success path of `mergePdfs`: start from an empty output document and,
for each source in list order, append copies of all of its pages. -/
def mergePdfs (files : List PDFDocument) : List Page :=
  files.foldl (fun acc f => acc ++ copyPages f (getPageIndices f)) []

lemma filterMap_getElem_range (l : List Page) :
    (List.range l.length).filterMap (fun i => l[i]?) = l := by
  induction l with
  | nil => simp
  | cons a t ih =>
    rw [List.length_cons, List.range_succ_eq_map, List.filterMap_cons]
    simp only [List.getElem?_cons_zero, List.filterMap_map]
    have h2 : ((fun i => (a :: t)[i]?) ∘ Nat.succ) = fun i => t[i]? := by
      funext i
      simp
    rw [h2, ih]

lemma copyPages_getPageIndices (d : PDFDocument) :
    copyPages d (getPageIndices d) = d.pages :=
  filterMap_getElem_range d.pages

lemma mergePdfs_loop (files : List PDFDocument) (acc : List Page) :
    files.foldl (fun acc f => acc ++ copyPages f (getPageIndices f)) acc
      = acc ++ (files.map (fun d => d.pages)).flatten := by
  induction files generalizing acc with
  | nil => simp
  | cons d t ih =>
    rw [List.foldl_cons, ih, copyPages_getPageIndices]
    simp

lemma flatten_singletons (docs : List PDFDocument)
    (h : ∀ d ∈ docs, d.pages.length = 1) :
    ∀ (i : ℕ) (hi : i < docs.length),
      ((docs.map (fun d => d.pages)).flatten)[i]? = (docs.get ⟨i, hi⟩).pages[0]? := by
  induction docs with
  | nil =>
    intro i hi
    simp at hi
  | cons d t ih =>
    intro i hi
    obtain ⟨p, hp⟩ := List.length_eq_one.mp (h d (by simp))
    cases i with
    | zero => simp [hp]
    | succ n =>
      have hn : n < t.length := by simpa using hi
      have := ih (fun x hx => h x (List.mem_cons_of_mem _ hx)) n hn
      simpa [hp] using this

/-- C3: merging produces the concatenation of each source's pages in list
order with intra-source order preserved; in particular, when every source has
a single page, page `i` of the result is exactly the page of source `i`. -/
theorem merge_concat (docs : List PDFDocument) :
    mergePdfs docs = (docs.map (fun d => d.pages)).flatten ∧
    ((∀ d ∈ docs, d.pages.length = 1) →
      ∀ (i : ℕ) (hi : i < docs.length),
        (mergePdfs docs)[i]? = (docs.get ⟨i, hi⟩).pages[0]?) := by
  have hmain : mergePdfs docs = (docs.map (fun d => d.pages)).flatten :=
    mergePdfs_loop docs []
  refine ⟨hmain, ?_⟩
  intro h i hi
  rw [hmain]
  exact flatten_singletons docs h i hi

/-- C3 witness: merging three concrete single-page documents yields their
pages in order, and page 1 of the result is source 1's page. -/
theorem merge_concat_witness :
    mergePdfs [⟨[10]⟩, ⟨[20]⟩, ⟨[30]⟩]
      = ([[10], [20], [30]] : List (List Page)).flatten ∧
    (mergePdfs [⟨[10]⟩, ⟨[20]⟩, ⟨[30]⟩])[1]? = some 20 := by
  have h := merge_concat [⟨[10]⟩, ⟨[20]⟩, ⟨[30]⟩]
  refine ⟨h.1, ?_⟩
  have := h.2 (by decide) 1 (by decide)
  simpa using this

/-- A user-supplied source file: its name together with the outcome of the
per-file `try` block of `mergePdfs` (read bytes, parse, copy pages). -/
structure NamedFile where
  name : String
  load : Except String PDFDocument

/-- The merge loop of `mergePdfs` with its per-file `try`/`catch`
(src/services/pdfService.ts lines 834-858): the first per-file failure is
rethrown as `Failed to merge <name>: <error>`, aborting the whole merge. -/
def mergeLoop : List Page → List NamedFile → Except String (List Page)
  | acc, [] => Except.ok acc
  | acc, f :: rest =>
    match f.load with
    | Except.ok doc => mergeLoop (acc ++ copyPages doc (getPageIndices doc)) rest
    | Except.error e =>
      Except.error ("Failed to merge " ++ f.name ++ ": " ++ e)

/-- `mergePdfs` over fallible source files. -/
def mergePdfsChecked (files : List NamedFile) : Except String (List Page) :=
  mergeLoop [] files

lemma mergeLoop_error (files : List NamedFile) (acc : List Page)
    (h : ∃ f ∈ files, ∃ e, f.load = Except.error e) :
    ∃ f ∈ files, ∃ e, f.load = Except.error e ∧
      mergeLoop acc files
        = Except.error ("Failed to merge " ++ f.name ++ ": " ++ e) := by
  induction files generalizing acc with
  | nil => simp at h
  | cons g rest ih =>
    cases hg : g.load with
    | ok doc =>
      have h2 : ∃ f ∈ rest, ∃ e, f.load = Except.error e := by
        obtain ⟨f, hf, e, he⟩ := h
        rcases List.mem_cons.mp hf with rfl | hf2
        · rw [hg] at he
          cases he
        · exact ⟨f, hf2, e, he⟩
      obtain ⟨f, hf, e, he, hres⟩ := ih (acc ++ copyPages doc (getPageIndices doc)) h2
      refine ⟨f, List.mem_cons_of_mem _ hf, e, he, ?_⟩
      simp only [mergeLoop, hg]
      exact hres
    | error e =>
      exact ⟨g, by simp, e, hg, by simp [mergeLoop, hg]⟩

/-- C4: if any one source fails to copy, the whole merge fails atomically: no
(partial) merged document is returned, and the reported error names the
failing source. -/
theorem merge_atomic_failure (files : List NamedFile)
    (h : ∃ f ∈ files, ∃ e, f.load = Except.error e) :
    (∀ pages, mergePdfsChecked files ≠ Except.ok pages) ∧
    ∃ f ∈ files, ∃ e, f.load = Except.error e ∧
      mergePdfsChecked files
        = Except.error ("Failed to merge " ++ f.name ++ ": " ++ e) := by
  obtain ⟨f, hf, e, he, hres⟩ := mergeLoop_error files [] h
  refine ⟨?_, f, hf, e, he, hres⟩
  intro pages hok
  rw [mergePdfsChecked] at hok
  rw [hok] at hres
  cases hres

/-- C4 witness: a merge whose second source fails to load returns no merged
document. -/
theorem merge_atomic_failure_witness :
    mergePdfsChecked
        [⟨"a.pdf", Except.ok ⟨[10]⟩⟩, ⟨"b.pdf", Except.error "bad bytes"⟩]
      ≠ Except.ok [10] :=
  (merge_atomic_failure
    [⟨"a.pdf", Except.ok ⟨[10]⟩⟩, ⟨"b.pdf", Except.error "bad bytes"⟩]
    ⟨⟨"b.pdf", Except.error "bad bytes"⟩, by simp, "bad bytes", rfl⟩).1 [10]

/-! ## File reordering (editor store `reorderFiles`)

```
reorderFiles: (startIndex: number, endIndex: number) => {
  const files = [...state.uploadedFiles]
  const [removed] = files.splice(startIndex, 1)
  files.splice(endIndex, 0, removed)
  const reorderedFiles = files.map((file, index) => ({ ...file, order: index }))
  return { uploadedFiles: reorderedFiles }
}
```

JS `splice` clamps both positions to the array length; `removed` is
`undefined` (modelled as `none`) when `startIndex` is past the end, and is
then inserted as a placeholder entry. -/

/-- An uploaded file record: its `order` field plus an opaque token standing
for all the other fields (id, file handle, name, size, status, …). -/
structure PDFFile where
  payload : ℕ
  order : ℕ
deriving DecidableEq, Repr

/-- `files.map((file, index) => ({ ...file, order: index }))`. -/
def withOrders (files : List PDFFile) : List PDFFile :=
  files.enum.map fun p => { p.2 with order := p.1 }

/-- The editor store's `reorderFiles`, with JS splice semantics. -/
def reorderFiles (files : List PDFFile) (startIndex endIndex : ℕ) :
    List (Option PDFFile) :=
  let removed := files[startIndex]?
  let rest := files.eraseIdx startIndex
  let spliced := List.insertIdx (min endIndex rest.length) removed (rest.map some)
  spliced.enum.map fun p => p.2.map fun f => { f with order := p.1 }

/-- Modelled from the spec: the page-order tracker operation
`reorder(oldIndex, newIndex)` — "remove the element at `oldIndex` and reinsert
it at `newIndex`, shifting the intervening elements by one position each — a
single-element move, not a swap". -/
def moveSeq {α : Type} (l : List α) (oldIndex newIndex : ℕ) : List α :=
  match l[oldIndex]? with
  | some x => List.insertIdx newIndex x (l.eraseIdx oldIndex)
  | none => l

lemma map_insertIdx {α β : Type} (f : α → β) :
    ∀ (n : ℕ) (x : α) (l : List α),
      (List.insertIdx n x l).map f = List.insertIdx n (f x) (l.map f)
  | 0, x, l => by simp
  | n + 1, x, [] => by simp
  | n + 1, x, a :: l => by
    simp only [List.insertIdx_succ_cons, List.map_cons]
    rw [map_insertIdx f n x l]

lemma map_eraseIdx {α β : Type} (f : α → β) :
    ∀ (l : List α) (n : ℕ), (l.eraseIdx n).map f = (l.map f).eraseIdx n
  | [], _ => by simp
  | a :: l, 0 => by simp
  | a :: l, n + 1 => by
    simp only [List.eraseIdx_cons_succ, List.map_cons]
    rw [map_eraseIdx f l n]

lemma insertIdx_getElem_eraseIdx {α : Type} :
    ∀ (l : List α) (n : ℕ) (x : α), l[n]? = some x →
      List.insertIdx n x (l.eraseIdx n) = l
  | [], n, x, h => by simp at h
  | a :: l, 0, x, h => by
    simp only [List.getElem?_cons_zero, Option.some.injEq] at h
    simp [h]
  | a :: l, n + 1, x, h => by
    simp only [List.getElem?_cons_succ] at h
    simp only [List.eraseIdx_cons_succ, List.insertIdx_succ_cons]
    rw [insertIdx_getElem_eraseIdx l n x h]

lemma getElem?_insertIdx_self {α : Type} (l : List α) (x : α) (n : ℕ)
    (hn : n ≤ l.length) : (List.insertIdx n x l)[n]? = some x := by
  have hlen : n < (List.insertIdx n x l).length := by
    rw [List.length_insertIdx n l hn]
    omega
  rw [List.getElem?_eq_getElem hlen, List.getElem_insertIdx_self l x n hn]

lemma length_moveSeq {α : Type} (l : List α) (oldIndex newIndex : ℕ)
    (h1 : oldIndex < l.length) (h2 : newIndex < l.length) :
    (moveSeq l oldIndex newIndex).length = l.length := by
  unfold moveSeq
  rw [List.getElem?_eq_getElem h1]
  simp only
  rw [List.length_insertIdx newIndex _
      (by rw [List.length_eraseIdx, if_pos h1]; omega),
    List.length_eraseIdx, if_pos h1]
  omega

lemma moveSeq_map {α β : Type} (f : α → β) (l : List α) (i j : ℕ) :
    (moveSeq l i j).map f = moveSeq (l.map f) i j := by
  unfold moveSeq
  rw [List.getElem?_map]
  cases h : l[i]? with
  | none => rfl
  | some x =>
    show List.map f (List.insertIdx j x (l.eraseIdx i))
        = List.insertIdx j (f x) ((List.map f l).eraseIdx i)
    rw [map_insertIdx, map_eraseIdx]

lemma moveSeq_involutive {α : Type} (l : List α) (oldIndex newIndex : ℕ)
    (h1 : oldIndex < l.length) (h2 : newIndex < l.length) :
    moveSeq (moveSeq l oldIndex newIndex) newIndex oldIndex = l := by
  have hx : l[oldIndex]? = some l[oldIndex] := List.getElem?_eq_getElem h1
  have hrest : (l.eraseIdx oldIndex).length = l.length - 1 := by
    rw [List.length_eraseIdx]
    simp [h1]
  have hinner : moveSeq l oldIndex newIndex
      = List.insertIdx newIndex l[oldIndex] (l.eraseIdx oldIndex) := by
    unfold moveSeq
    rw [hx]
  rw [hinner]
  unfold moveSeq
  rw [getElem?_insertIdx_self _ _ _ (by omega)]
  show List.insertIdx oldIndex l[oldIndex]
      ((List.insertIdx newIndex l[oldIndex] (l.eraseIdx oldIndex)).eraseIdx
        newIndex) = l
  rw [List.eraseIdx_insertIdx, insertIdx_getElem_eraseIdx l oldIndex _ hx]

lemma getElem?_withOrders (l : List PDFFile) (i : ℕ) :
    (withOrders l)[i]? = l[i]?.map fun f => { f with order := i } := by
  rw [withOrders, List.getElem?_map, List.getElem?_enum, Option.map_map]
  rfl

lemma length_withOrders (l : List PDFFile) :
    (withOrders l).length = l.length := by
  simp [withOrders]

lemma payload_withOrders (l : List PDFFile) :
    (withOrders l).map PDFFile.payload = l.map PDFFile.payload := by
  apply List.ext_get?_iff.mpr
  intro i
  simp only [List.get?_eq_getElem?, List.getElem?_map, getElem?_withOrders,
    Option.map_map]
  rfl

lemma withOrders_congr (l₁ l₂ : List PDFFile)
    (h : l₁.map PDFFile.payload = l₂.map PDFFile.payload) :
    withOrders l₁ = withOrders l₂ := by
  apply List.ext_get?_iff.mpr
  intro i
  have hp := congrArg (fun l => l.get? i) h
  simp only [List.get?_eq_getElem?, List.getElem?_map] at hp
  simp only [List.get?_eq_getElem?, getElem?_withOrders]
  cases h1 : l₁[i]? with
  | none =>
    rw [h1] at hp
    cases h2 : l₂[i]? with
    | none => rfl
    | some b =>
      rw [h2] at hp
      cases hp
  | some a =>
    rw [h1] at hp
    cases h2 : l₂[i]? with
    | none =>
      rw [h2] at hp
      cases hp
    | some b =>
      rw [h2] at hp
      simp only [Option.map_some', Option.some.injEq] at hp
      simp only [Option.map_some', Option.some.injEq]
      cases a
      cases b
      simp only [PDFFile.mk.injEq] at hp ⊢
      simp_all

lemma applyOrders_map_some (s : List PDFFile) :
    ((s.map some).enum.map fun p => p.2.map fun f => { f with order := p.1 })
      = (withOrders s).map some := by
  apply List.ext_get?_iff.mpr
  intro i
  simp only [List.get?_eq_getElem?, List.getElem?_map, List.getElem?_enum,
    getElem?_withOrders, Option.map_map]
  cases s[i]? with
  | none => rfl
  | some a => rfl

lemma reorderFiles_eq_move (l : List PDFFile) (oldIndex newIndex : ℕ)
    (h1 : oldIndex < l.length) (h2 : newIndex < l.length) :
    reorderFiles l oldIndex newIndex
      = (withOrders (moveSeq l oldIndex newIndex)).map some := by
  have hx : l[oldIndex]? = some l[oldIndex] := List.getElem?_eq_getElem h1
  have hrest : (l.eraseIdx oldIndex).length = l.length - 1 := by
    rw [List.length_eraseIdx]
    simp [h1]
  rw [reorderFiles]
  simp only [hx, List.length_map, hrest]
  rw [Nat.min_eq_left (by omega)]
  rw [← map_insertIdx some newIndex _ _]
  rw [applyOrders_map_some]
  rw [moveSeq, hx]

/-- C5: `reorderFiles` performs a single-element move — remove at `oldIndex`,
reinsert at `newIndex` (not a swap), with the `order` fields recomputed — and
for in-range indices the reorder followed by its inverse restores the original
sequence. -/
theorem reorder_move_involutive (l : List PDFFile) (oldIndex newIndex : ℕ)
    (h1 : oldIndex < l.length) (h2 : newIndex < l.length) :
    reorderFiles l oldIndex newIndex
        = (withOrders (moveSeq l oldIndex newIndex)).map some ∧
    reorderFiles (withOrders (moveSeq l oldIndex newIndex)) newIndex oldIndex
        = (withOrders l).map some ∧
    (withOrders l = l →
      reorderFiles (withOrders (moveSeq l oldIndex newIndex)) newIndex oldIndex
        = l.map some) := by
  have hlen : (withOrders (moveSeq l oldIndex newIndex)).length = l.length := by
    rw [length_withOrders, length_moveSeq l oldIndex newIndex h1 h2]
  have hsecond : reorderFiles (withOrders (moveSeq l oldIndex newIndex))
      newIndex oldIndex = (withOrders l).map some := by
    rw [reorderFiles_eq_move _ newIndex oldIndex (by omega) (by omega)]
    congr 1
    apply withOrders_congr
    rw [moveSeq_map, payload_withOrders,
      ← moveSeq_map PDFFile.payload (moveSeq l oldIndex newIndex) newIndex
        oldIndex,
      moveSeq_involutive l oldIndex newIndex h1 h2]
  refine ⟨reorderFiles_eq_move l oldIndex newIndex h1 h2, hsecond, ?_⟩
  intro hid
  rw [hsecond, hid]

/-- C5 witness: moving the first of three files to the back and back again
restores the original list. -/
theorem reorder_move_involutive_witness :
    reorderFiles [⟨10, 0⟩, ⟨20, 1⟩, ⟨30, 2⟩] 0 2
        = (withOrders (moveSeq [⟨10, 0⟩, ⟨20, 1⟩, ⟨30, 2⟩] 0 2)).map some ∧
    reorderFiles (withOrders (moveSeq [⟨10, 0⟩, ⟨20, 1⟩, ⟨30, 2⟩] 0 2)) 2 0
        = [some ⟨10, 0⟩, some ⟨20, 1⟩, some ⟨30, 2⟩] := by
  have h := reorder_move_involutive [⟨10, 0⟩, ⟨20, 1⟩, ⟨30, 2⟩] 0 2
    (by decide) (by decide)
  exact ⟨h.1, h.2.2 (by decide)⟩

/-- C6 counterexample: `newIndex = 2` is outside `[0, 2)` for a two-file list,
yet the call is not rejected: the list changes (the first file moves to the
end). -/
theorem reorder_out_of_range_changes_state :
    reorderFiles [⟨10, 0⟩, ⟨20, 1⟩] 0 2 = [some ⟨20, 0⟩, some ⟨10, 1⟩] ∧
    reorderFiles [⟨10, 0⟩, ⟨20, 1⟩] 0 2 ≠ [some ⟨10, 0⟩, some ⟨20, 1⟩] := by
  decide

/-- C6 amended: `reorderFiles` performs no bounds check and never raises an
error: a `newIndex` past the end is clamped by splice, so the element at
`oldIndex` is moved to the last position; an `oldIndex` past the end removes
nothing but still inserts a placeholder (`undefined`) entry, growing the list
by one. In neither case is the call a state-preserving no-op. -/
theorem reorder_no_bounds_check (l : List PDFFile) (oldIndex newIndex : ℕ) :
    (oldIndex < l.length → l.length ≤ newIndex →
      reorderFiles l oldIndex newIndex
        = (withOrders (moveSeq l oldIndex (l.length - 1))).map some) ∧
    (l.length ≤ oldIndex →
      (reorderFiles l oldIndex newIndex).length = l.length + 1) := by
  constructor
  · intro h1 h2
    have hx : l[oldIndex]? = some l[oldIndex] := List.getElem?_eq_getElem h1
    have hrest : (l.eraseIdx oldIndex).length = l.length - 1 := by
      rw [List.length_eraseIdx]
      simp [h1]
    rw [reorderFiles]
    simp only [hx, List.length_map, hrest]
    rw [Nat.min_eq_right (by omega)]
    rw [← map_insertIdx some (l.length - 1) _ _]
    rw [applyOrders_map_some]
    rw [moveSeq, hx]
  · intro h1
    have hx : l[oldIndex]? = none := List.getElem?_eq_none h1
    have hrest : l.eraseIdx oldIndex = l := List.eraseIdx_of_length_le h1
    rw [reorderFiles]
    simp only [hx, hrest, List.length_map]
    rw [List.enum_length,
      List.length_insertIdx _ _
        (by rw [List.length_map]; exact Nat.min_le_right _ _),
      List.length_map]

/-- C6 amended witness: a concrete out-of-range `newIndex` moves the file to
the back, and a concrete out-of-range `oldIndex` grows the list by one. -/
theorem reorder_no_bounds_check_witness :
    reorderFiles [⟨10, 0⟩, ⟨20, 1⟩] 0 5
        = (withOrders (moveSeq [⟨10, 0⟩, ⟨20, 1⟩] 0 1)).map some ∧
    (reorderFiles [⟨10, 0⟩] 3 0).length = 2 :=
  ⟨(reorder_no_bounds_check [⟨10, 0⟩, ⟨20, 1⟩] 0 5).1 (by decide) (by decide),
    (reorder_no_bounds_check [⟨10, 0⟩] 3 0).2 (by decide)⟩

/-! ## Annotation compositor (modelled from the spec)

The functional pdf-lib utility module imported by `usePdfState` — providing
`fileToBytes`, `mergePdfs`, `reorderPages` and the annotation compositor
`addTextAnnotations` (import site: src/hooks/useAutoSave.ts line 71) — is not
present under src/.  Its behavior is therefore modelled from the spec, §4.5. -/

/-- The four embedded font variants (regular, bold, italic, bold-italic). -/
inductive FontVariant where
  | regular
  | bold
  | italic
  | boldItalic
deriving DecidableEq, Repr

/-- Modelled from the spec: step 2 of the annotation compositor
`addTextAnnotations` (implementation missing from src/) — "Resolve font
variant by a fixed precedence: both bold and italic formats present →
bold-italic variant; bold only → bold variant; italic only → italic variant;
neither → regular variant." -/
def resolveFontVariant (formats : List TextFormat) : FontVariant :=
  if formats.contains TextFormat.bold
      && formats.contains TextFormat.italic then
    FontVariant.boldItalic
  else if formats.contains TextFormat.bold then FontVariant.bold
  else if formats.contains TextFormat.italic then FontVariant.italic
  else FontVariant.regular

/-- C7: the font variant is resolved by the fixed precedence on the formats
set: bold and italic → bold-italic (never a fallback to regular), bold only →
bold, italic only → italic, neither → regular. -/
theorem font_variant_precedence (formats : List TextFormat) :
    (TextFormat.bold ∈ formats → TextFormat.italic ∈ formats →
      resolveFontVariant formats = FontVariant.boldItalic) ∧
    (TextFormat.bold ∈ formats → TextFormat.italic ∉ formats →
      resolveFontVariant formats = FontVariant.bold) ∧
    (TextFormat.bold ∉ formats → TextFormat.italic ∈ formats →
      resolveFontVariant formats = FontVariant.italic) ∧
    (TextFormat.bold ∉ formats → TextFormat.italic ∉ formats →
      resolveFontVariant formats = FontVariant.regular) := by
  unfold resolveFontVariant
  refine ⟨?_, ?_, ?_, ?_⟩ <;>
    · intro h1 h2
      simp [h1, h2]

/-- C7 witness: an annotation carrying both bold and italic resolves to the
bold-italic variant. -/
theorem font_variant_precedence_witness :
    resolveFontVariant [TextFormat.bold, TextFormat.italic]
      = FontVariant.boldItalic :=
  (font_variant_precedence [TextFormat.bold, TextFormat.italic]).1
    (by decide) (by decide)

/-- Modelled from the spec: a compositor annotation record, §3 —
`{ id, pageIndex (0-based), text, position (x, y), style, formats }`. -/
structure AnnRec where
  id : ℕ
  pageIndex : ℕ
  text : String
  x : ℚ
  y : ℚ
  fontSize : ℚ
  color : String
  formats : List TextFormat
deriving DecidableEq, Repr

/-- Modelled from the spec: the compositor's working document — each page is
its original (opaque) content paired with the annotation records already
stamped onto it. -/
abbrev CompDoc := List (Page × List AnnRec)

/-- Modelled from the spec: stamping one annotation, §4.5 step 1 — "Resolve
target page by pageIndex (0-based); an out-of-range index causes that single
annotation to be skipped and logged, not a fatal failure for the whole
operation"; in-range annotations are drawn onto their target page. -/
def stampAnn (pages : CompDoc) (a : AnnRec) : CompDoc :=
  match pages[a.pageIndex]? with
  | some pg => pages.set a.pageIndex (pg.1, pg.2 ++ [a])
  | none => pages

/-- Modelled from the spec: `composite(document handle, annotations)` — each
annotation is applied in input list order. -/
def compositeAnns (pages : CompDoc) (anns : List AnnRec) : CompDoc :=
  anns.foldl stampAnn pages

lemma length_stampAnn (pages : CompDoc) (a : AnnRec) :
    (stampAnn pages a).length = pages.length := by
  unfold stampAnn
  cases pages[a.pageIndex]? with
  | none => rfl
  | some pg => simp

lemma stampAnn_out_of_range (pages : CompDoc) (a : AnnRec)
    (h : pages.length ≤ a.pageIndex) : stampAnn pages a = pages := by
  unfold stampAnn
  rw [List.getElem?_eq_none h]

/-- C8: compositing skips exactly the annotations whose `pageIndex` is outside
the document's page range and still applies every other annotation; the
operation always produces a document with the same page count (it never
fails). -/
theorem composite_skips_out_of_range (pages : CompDoc) (anns : List AnnRec) :
    compositeAnns pages anns
      = compositeAnns pages
          (anns.filter fun a => a.pageIndex < pages.length) ∧
    (compositeAnns pages anns).length = pages.length := by
  induction anns generalizing pages with
  | nil => exact ⟨rfl, rfl⟩
  | cons a t ih =>
    by_cases h : a.pageIndex < pages.length
    · have hlen := length_stampAnn pages a
      have iht := ih (stampAnn pages a)
      constructor
      · rw [compositeAnns, List.foldl_cons, List.filter_cons_of_pos (by simpa)]
        rw [compositeAnns, List.foldl_cons]
        rw [← compositeAnns, ← compositeAnns, iht.1, hlen]
      · rw [compositeAnns, List.foldl_cons, ← compositeAnns, iht.2, hlen]
    · have hskip := stampAnn_out_of_range pages a (by omega)
      have iht := ih pages
      constructor
      · rw [compositeAnns, List.foldl_cons, hskip,
          List.filter_cons_of_neg (by simpa using h)]
        exact iht.1
      · rw [compositeAnns, List.foldl_cons, hskip]
        exact iht.2

/-- C8 example: on a concrete three-page document, an annotation aimed at page
index 99 is dropped while the in-range annotation on page 1 still lands. -/
theorem composite_skips_out_of_range_example :
    compositeAnns [(10, []), (20, []), (30, [])]
        [⟨1, 99, "lost", 0, 0, 14, "#000000", []⟩,
          ⟨2, 1, "hello", 5, 5, 14, "#000000", []⟩]
      = [(10, []), (20, [⟨2, 1, "hello", 5, 5, 14, "#000000", []⟩]),
          (30, [])] := by
  decide

/-! ## Text annotation commit (src/hooks/useAutoSave.ts `usePdfState.addText`,
lines 150-161)

```
setAnnotations(prev => {
  const existingIndex = prev.findIndex(a => a.id === annotation.id)
  if (existingIndex >= 0) {
    const updated = [...prev]
    updated[existingIndex] = annotation
    return updated
  }
  return [...prev, annotation]
})
``` -/

/-- The commit operation on the annotation list. -/
def addText (anns : List TextAnn) (a : TextAnn) : List TextAnn :=
  match anns.findIdx? (fun x => x.id == a.id) with
  | some i => anns.set i a
  | none => anns ++ [a]

lemma addText_cons_hit (x : TextAnn) (t : List TextAnn) (a : TextAnn)
    (h : x.id = a.id) : addText (x :: t) a = a :: t := by
  unfold addText
  rw [List.findIdx?_cons, if_pos (by simp [h])]
  simp

lemma addText_cons_miss (x : TextAnn) (t : List TextAnn) (a : TextAnn)
    (h : x.id ≠ a.id) : addText (x :: t) a = x :: addText t a := by
  unfold addText
  rw [List.findIdx?_cons, if_neg (by simp [h]), List.findIdx?_succ]
  cases hf : List.findIdx? (fun y => y.id == a.id) t with
  | none => simp [hf]
  | some i => simp [hf]

/-- C9: committing a text annotation whose id already occurs replaces the
first annotation with that id in place (the length is unchanged and no
duplicate is appended); committing an id not present appends exactly one new
annotation. -/
theorem text_commit_replace_or_append (anns : List TextAnn) (a : TextAnn) :
    ((∃ x ∈ anns, x.id = a.id) →
      (addText anns a).length = anns.length ∧
      ∃ (i : ℕ) (hi : i < anns.length),
        (anns.get ⟨i, hi⟩).id = a.id ∧
        (∀ (j : ℕ) (hj : j < anns.length), j < i →
          (anns.get ⟨j, hj⟩).id ≠ a.id) ∧
        addText anns a = anns.set i a) ∧
    ((∀ x ∈ anns, x.id ≠ a.id) → addText anns a = anns ++ [a]) := by
  induction anns with
  | nil =>
    constructor
    · intro h
      simp at h
    · intro _
      rfl
  | cons x t ih =>
    by_cases hx : x.id = a.id
    · constructor
      · intro _
        rw [addText_cons_hit x t a hx]
        refine ⟨by simp, 0, by simp, by simpa using hx, ?_, by simp⟩
        intro j hj hj0
        omega
      · intro h
        exact absurd hx (h x (by simp))
    · constructor
      · intro h
        obtain ⟨y, hy, hyid⟩ := h
        have hyt : y ∈ t := by
          rcases List.mem_cons.mp hy with rfl | hyt
          · exact absurd hyid hx
          · exact hyt
        obtain ⟨hlen, i, hi, hmatch, hfirst, heq⟩ := ih.1 ⟨y, hyt, hyid⟩
        rw [addText_cons_miss x t a hx]
        refine ⟨by simpa using hlen, i + 1, by simpa using hi, by simpa using hmatch,
          ?_, by rw [heq, List.set_cons_succ]⟩
        intro j hj hji
        cases j with
        | zero => simpa using hx
        | succ k =>
          have hk : k < t.length := by simpa using hj
          have := hfirst k hk (by omega)
          simpa using this
      · intro h
        rw [addText_cons_miss x t a hx,
          ih.2 (fun y hy => h y (List.mem_cons_of_mem _ hy))]
        rfl

/-- C9 witness: committing with an existing id keeps the length at 1;
committing a fresh id appends. -/
theorem text_commit_replace_or_append_witness :
    (addText [⟨some "k", none, none, some "old", none, none, none⟩]
        ⟨some "k", none, none, some "new", none, none, none⟩).length
      = List.length [(⟨some "k", none, none, some "old", none, none, none⟩ : TextAnn)] ∧
    addText [⟨some "k", none, none, some "old", none, none, none⟩]
        ⟨some "j", none, none, some "other", none, none, none⟩
      = [⟨some "k", none, none, some "old", none, none, none⟩,
          ⟨some "j", none, none, some "other", none, none, none⟩] :=
  ⟨((text_commit_replace_or_append
      [⟨some "k", none, none, some "old", none, none, none⟩]
      ⟨some "k", none, none, some "new", none, none, none⟩).1
      ⟨⟨some "k", none, none, some "old", none, none, none⟩, by simp, rfl⟩).1,
    (text_commit_replace_or_append
      [⟨some "k", none, none, some "old", none, none, none⟩]
      ⟨some "j", none, none, some "other", none, none, none⟩).2
      (by decide)⟩

/-! ## Page-order materialization (`PDFPageService.createReorderedPDF`)

```
static async createReorderedPDF(pageOrder, pdfDocuments) {
  const newPdf = await PDFDocument.create()
  for (const pageInfo of pageOrder) {
    const sourcePdf = pdfDocuments.get(pageInfo.fileId)
    if (!sourcePdf) continue
    try {
      const [copiedPage] = await newPdf.copyPages(sourcePdf, [pageInfo.pageNumber - 1])
      newPdf.addPage(copiedPage)
    } catch (error) { console.error(...) }
  }
  return await newPdf.save()
}
``` -/

/-- `PageInfo` from src/types/editor.ts. -/
structure PageInfo where
  id : String
  fileId : String
  fileName : String
  pageNumber : ℕ
  globalIndex : ℕ
deriving DecidableEq, Repr

/-- One iteration of the `createReorderedPDF` loop: a missing source handle
(`continue`) or a failing page copy (`catch`) leaves the output unchanged. -/
def reorderStep (pdfDocuments : List (String × PDFDocument))
    (acc : List Page) (info : PageInfo) : List Page :=
  match pdfDocuments.lookup info.fileId with
  | none => acc
  | some sourcePdf =>
    match sourcePdf.pages[info.pageNumber - 1]? with
    | none => acc
    | some p => acc ++ [p]

/-- `PDFPageService.createReorderedPDF`: build a new document by copying the
requested pages in order, then serialize it. -/
def createReorderedPDF (pageOrder : List PageInfo)
    (pdfDocuments : List (String × PDFDocument)) : List Page :=
  pageOrder.foldl (reorderStep pdfDocuments) []

/-- A page-order entry whose source handle exists and whose page copy
succeeds. -/
def pageCopyOk (pdfDocuments : List (String × PDFDocument))
    (info : PageInfo) : Bool :=
  (((pdfDocuments.lookup info.fileId).bind
    fun d => d.pages[info.pageNumber - 1]?).isSome)

lemma reorderStep_of_not_ok (docs : List (String × PDFDocument))
    (acc : List Page) (info : PageInfo) (h : pageCopyOk docs info = false) :
    reorderStep docs acc info = acc := by
  unfold pageCopyOk at h
  unfold reorderStep
  cases hl : docs.lookup info.fileId with
  | none => rfl
  | some d =>
    rw [hl] at h
    simp only [Option.some_bind] at h
    have hp : d.pages[info.pageNumber - 1]? = none :=
      Option.not_isSome_iff_eq_none.mp (by simp [h])
    show (match d.pages[info.pageNumber - 1]? with
      | none => acc
      | some p => acc ++ [p]) = acc
    rw [hp]

lemma createLoop_filter (docs : List (String × PDFDocument)) :
    ∀ (order : List PageInfo) (acc : List Page),
      order.foldl (reorderStep docs) acc
        = (order.filter (pageCopyOk docs)).foldl (reorderStep docs) acc := by
  intro order
  induction order with
  | nil => intro acc; rfl
  | cons info t ih =>
    intro acc
    cases hb : pageCopyOk docs info with
    | false =>
      rw [List.foldl_cons, reorderStep_of_not_ok docs acc info hb,
        List.filter_cons_of_neg (by simp [hb])]
      exact ih acc
    | true =>
      rw [List.foldl_cons, List.filter_cons_of_pos (by simp [hb]),
        List.foldl_cons]
      exact ih _

lemma createLoop_length (docs : List (String × PDFDocument)) :
    ∀ (order : List PageInfo) (acc : List Page),
      (order.foldl (reorderStep docs) acc).length
        ≤ acc.length + order.length := by
  intro order
  induction order with
  | nil => intro acc; simp
  | cons info t ih =>
    intro acc
    rw [List.foldl_cons]
    refine le_trans (ih _) ?_
    have hstep : (reorderStep docs acc info).length ≤ acc.length + 1 := by
      unfold reorderStep
      cases docs.lookup info.fileId with
      | none => simp
      | some d =>
        show (match d.pages[info.pageNumber - 1]? with
          | none => acc
          | some p => acc ++ [p]).length ≤ acc.length + 1
        cases d.pages[info.pageNumber - 1]? with
        | none => simp
        | some p => simp
    simp only [List.length_cons]
    omega

/-- C10: materializing a page order skips exactly the entries whose source
handle is missing or whose page copy fails — the remaining entries are still
copied, bytes are always produced — and hence the output page count can be
strictly below the requested order's length, as on the concrete one-entry
order whose source is absent. -/
theorem reordered_pdf_skips_failures (pageOrder : List PageInfo)
    (pdfDocuments : List (String × PDFDocument)) :
    createReorderedPDF pageOrder pdfDocuments
      = createReorderedPDF (pageOrder.filter (pageCopyOk pdfDocuments))
          pdfDocuments ∧
    (createReorderedPDF pageOrder pdfDocuments).length ≤ pageOrder.length ∧
    (createReorderedPDF [⟨"x", "missing", "gone.pdf", 1, 0⟩] []).length
      < ([⟨"x", "missing", "gone.pdf", 1, 0⟩] : List PageInfo).length := by
  refine ⟨createLoop_filter pdfDocuments pageOrder [], ?_, by decide⟩
  have := createLoop_length pdfDocuments pageOrder []
  simpa using this

end PdfEditor
